import Mathlib

/-!
Shallow embedding of the hybrid logical clock implemented in `src/lib.rs`
(crate `hlc`). The Rust code stores a timestamp `HLTimespec` made of a
`time::Timespec` wall component (`sec : i64`, `nsec : i32`) and a `logical : u16`
counter, and a clock `State` holding the last issued timestamp `s` together
with a wall-time source `now`. Both `get_time` and `update` read the source
exactly once; here the reading is passed as an explicit argument and the
functions return the updated `s` (the Rust methods return `s.clone()`, a copy
of the updated state, so the return value and the post-state coincide).

Machine integers are embedded as `Int` (no arithmetic is ever performed on
`sec`/`nsec`, only comparisons and copies, so `i64`/`i32` overflow cannot
occur) and the `u16` counter as `Nat` with an explicit `% 65536` at the two
increment sites, matching release-mode wrapping of `s.logical += 1`.
-/

/-- `time::Timespec { sec: i64, nsec: i32 }`. -/
structure Timespec where
  sec : Int
  nsec : Int
deriving DecidableEq

/-- The comparator that Rust's `derive(Ord)` uses on an integer field. -/
def dcmp {α : Type} [LinearOrder α] (a b : α) : Ordering :=
  if a < b then Ordering.lt else if a = b then Ordering.eq else Ordering.gt

theorem dcmp_eq_lt {α : Type} [LinearOrder α] {a b : α} :
    dcmp a b = Ordering.lt ↔ a < b := by
  unfold dcmp
  split_ifs with h1 h2 <;> simp [h1]

theorem dcmp_eq_eq {α : Type} [LinearOrder α] {a b : α} :
    dcmp a b = Ordering.eq ↔ a = b := by
  unfold dcmp
  split_ifs with h1 h2
  · simp [h1.ne]
  · simp [h2]
  · simp [h2]

theorem dcmp_eq_gt {α : Type} [LinearOrder α] {a b : α} :
    dcmp a b = Ordering.gt ↔ b < a := by
  unfold dcmp
  split_ifs with h1 h2
  · simp [lt_asymm h1]
  · simp [h2, lt_irrefl]
  · simp [lt_of_le_of_ne (le_of_not_lt h1) (Ne.symm h2)]

/-- `derive(Ord)` on `time::Timespec`: lexicographic on `(sec, nsec)`. -/
def Timespec.cmp (a b : Timespec) : Ordering :=
  (dcmp a.sec b.sec).then (dcmp a.nsec b.nsec)

/-- The Rust `<` on `time::Timespec` (derived `Ord`). -/
def Timespec.lt (a b : Timespec) : Prop := Timespec.cmp a b = Ordering.lt

instance (a b : Timespec) : Decidable (Timespec.lt a b) :=
  inferInstanceAs (Decidable (Timespec.cmp a b = Ordering.lt))

theorem tlt_iff {a b : Timespec} :
    Timespec.lt a b ↔ a.sec < b.sec ∨ (a.sec = b.sec ∧ a.nsec < b.nsec) := by
  unfold Timespec.lt Timespec.cmp
  rw [Ordering.then_eq_lt, dcmp_eq_lt, dcmp_eq_eq, dcmp_eq_lt]

theorem teq_iff {a b : Timespec} :
    a = b ↔ a.sec = b.sec ∧ a.nsec = b.nsec := by
  cases a
  cases b
  simp [Timespec.mk.injEq]

/-- `HLTimespec { wall: time::Timespec, logical: u16 }`. -/
structure HLTimespec where
  wall : Timespec
  logical : Nat
deriving DecidableEq

/-- `HLTimespec::new(s, ns, l)`. -/
def HLTimespec.new (s ns : Int) (l : Nat) : HLTimespec :=
  { wall := { sec := s, nsec := ns }, logical := l }

/-- `derive(Ord)` on `HLTimespec`: lexicographic on `(wall, logical)`. -/
def HLTimespec.cmp (a b : HLTimespec) : Ordering :=
  (Timespec.cmp a.wall b.wall).then (dcmp a.logical b.logical)

/-- The Rust `<` on `HLTimespec` (derived `Ord`). -/
def HLTimespec.lt (a b : HLTimespec) : Prop := HLTimespec.cmp a b = Ordering.lt

instance (a b : HLTimespec) : Decidable (HLTimespec.lt a b) :=
  inferInstanceAs (Decidable (HLTimespec.cmp a b = Ordering.lt))

theorem Timespec.cmp_eq_eq {a b : Timespec} :
    Timespec.cmp a b = Ordering.eq ↔ a = b := by
  unfold Timespec.cmp
  rw [Ordering.then_eq_eq, dcmp_eq_eq, dcmp_eq_eq, teq_iff]

theorem hlt_iff {a b : HLTimespec} :
    HLTimespec.lt a b ↔
      Timespec.lt a.wall b.wall ∨ (a.wall = b.wall ∧ a.logical < b.logical) := by
  unfold HLTimespec.lt HLTimespec.cmp
  rw [Ordering.then_eq_lt, dcmp_eq_lt, Timespec.cmp_eq_eq]
  exact Iff.rfl

theorem heq_iff {a b : HLTimespec} :
    a = b ↔ a.wall = b.wall ∧ a.logical = b.logical := by
  cases a
  cases b
  simp [HLTimespec.mk.injEq]

theorem tlt_trichotomy (a b : Timespec) :
    Timespec.lt a b ∨ a = b ∨ Timespec.lt b a := by
  rcases a with ⟨as, an⟩
  rcases b with ⟨bs, bn⟩
  simp only [tlt_iff, Timespec.mk.injEq]
  omega

theorem hlt_trichotomy (a b : HLTimespec) :
    HLTimespec.lt a b ∨ a = b ∨ HLTimespec.lt b a := by
  rcases a with ⟨⟨as, an⟩, al⟩
  rcases b with ⟨⟨bs, bn⟩, bl⟩
  simp only [hlt_iff, tlt_iff, HLTimespec.mk.injEq, Timespec.mk.injEq]
  omega

/-- 2^16, the modulus of the `u16` logical counter. -/
def u16Mod : Nat := 65536

/--
`State::get_time` from `src/lib.rs`, with the single wall-time reading
`(self.now)()` passed explicitly. The state mutation and the returned
`s.clone()` are the same value, so the function returns the new `s`.
-/
def get_time (s : HLTimespec) (wall : Timespec) : HLTimespec :=
  if Timespec.lt s.wall wall then
    { wall := wall, logical := 0 }
  else
    { wall := s.wall, logical := (s.logical + 1) % u16Mod }

/--
`State::update` from `src/lib.rs`, with the single wall-time reading passed
explicitly. The final `else` branch performs
`if event.logical > s.logical { s.logical = event.logical }; s.logical += 1`,
i.e. `(max s.logical event.logical) + 1` on a wrapping `u16`.
-/
def update (s : HLTimespec) (event : HLTimespec) (wall : Timespec) : HLTimespec :=
  if Timespec.lt event.wall wall ∧ Timespec.lt s.wall wall then
    { wall := wall, logical := 0 }
  else if Timespec.lt s.wall event.wall then
    { wall := event.wall, logical := (event.logical + 1) % u16Mod }
  else if Timespec.lt event.wall s.wall then
    { wall := s.wall, logical := (s.logical + 1) % u16Mod }
  else
    { wall := s.wall, logical := (max s.logical event.logical + 1) % u16Mod }

/-- C3: the comparison on `HLTimespec` is lexicographic — `a < b` iff
`a.wall < b.wall` or (`a.wall == b.wall` and `a.logical < b.logical`), where
wall values compare by seconds first and nanoseconds second; equality requires
exact equality of both fields; and every pair of timestamps is comparable
(total order). -/
theorem C3_total_order :
    (∀ a b : HLTimespec, HLTimespec.lt a b ↔
        (Timespec.lt a.wall b.wall ∨ (a.wall = b.wall ∧ a.logical < b.logical)))
    ∧ (∀ a b : Timespec, Timespec.lt a b ↔
        (a.sec < b.sec ∨ (a.sec = b.sec ∧ a.nsec < b.nsec)))
    ∧ (∀ a b : HLTimespec, a = b ↔ (a.wall = b.wall ∧ a.logical = b.logical))
    ∧ (∀ a b : HLTimespec, HLTimespec.lt a b ∨ a = b ∨ HLTimespec.lt b a) :=
  ⟨fun _ _ => hlt_iff, fun _ _ => tlt_iff,
   fun _ _ => heq_iff, hlt_trichotomy⟩

/-- One call on the clock: `get_time` (the spec's `now()`) or `update event`
(the spec's `merge(event)`). -/
inductive Op where
  | now : Op
  | merge : HLTimespec → Op

/-- Perform one call, given the wall-time reading that call consumes. -/
def stepOp (s : HLTimespec) (w : Timespec) : Op → HLTimespec
  | Op.now => get_time s w
  | Op.merge e => update s e w

/-- Run a script of calls, each paired with the wall-time reading the scripted
source returns for it; collect the returned timestamps. -/
def run (s : HLTimespec) : List (Timespec × Op) → List HLTimespec
  | [] => []
  | (w, op) :: rest => stepOp s w op :: run (stepOp s w op) rest

/-- `State::new_with`: `current` starts at the zero timestamp. -/
def new_with : HLTimespec :=
  { wall := { sec := 0, nsec := 0 }, logical := 0 }

/-- Validation of the embedding against the 12-step reference test vector in
`src/lib.rs` (`mod tests`, `it_works`). -/
theorem run_matches_reference_test :
    run new_with
      [ (⟨1, 0⟩, Op.now), (⟨1, 0⟩, Op.now), (⟨0, 9⟩, Op.now), (⟨2, 0⟩, Op.now),
        (⟨3, 0⟩, Op.merge (HLTimespec.new 1 2 3)),
        (⟨3, 0⟩, Op.merge (HLTimespec.new 1 2 3)),
        (⟨3, 0⟩, Op.merge (HLTimespec.new 3 0 1)),
        (⟨3, 0⟩, Op.merge (HLTimespec.new 3 0 99)),
        (⟨3, 5⟩, Op.merge (HLTimespec.new 4 4 100)),
        (⟨5, 0⟩, Op.merge (HLTimespec.new 4 5 0)),
        (⟨4, 9⟩, Op.merge (HLTimespec.new 5 0 99)),
        (⟨0, 0⟩, Op.merge (HLTimespec.new 5 0 50)) ]
    = [ HLTimespec.new 1 0 0, HLTimespec.new 1 0 1, HLTimespec.new 1 0 2,
        HLTimespec.new 2 0 0, HLTimespec.new 3 0 0, HLTimespec.new 3 0 1,
        HLTimespec.new 3 0 2, HLTimespec.new 3 0 100, HLTimespec.new 4 4 101,
        HLTimespec.new 5 0 0, HLTimespec.new 5 0 100, HLTimespec.new 5 0 101 ] := by
  decide

/-- C1 fails as stated: with the logical counter at its maximum 65535 and a
non-advancing wall reading, `get_time` wraps the counter to 0 and the result is
strictly SMALLER than the previous `current`, not greater. -/
theorem C1_counterexample :
    get_time (HLTimespec.new 5 0 65535) ⟨5, 0⟩ = HLTimespec.new 5 0 0
    ∧ HLTimespec.lt (get_time (HLTimespec.new 5 0 65535) ⟨5, 0⟩)
        (HLTimespec.new 5 0 65535)
    ∧ ¬ HLTimespec.lt (HLTimespec.new 5 0 65535)
        (get_time (HLTimespec.new 5 0 65535) ⟨5, 0⟩) := by
  decide

/-- C1 (amended): whenever the prior logical counter is below its maximum
65535, or the wall reading advances past `current.wall`, the timestamp
returned by `get_time` is strictly greater than the previous `current` under
the lexicographic total order. -/
theorem C1_monotone (s : HLTimespec) (w : Timespec)
    (h : s.logical < 65535 ∨ Timespec.lt s.wall w) :
    HLTimespec.lt s (get_time s w) := by
  unfold get_time
  by_cases hw : Timespec.lt s.wall w
  · rw [if_pos hw]
    exact hlt_iff.mpr (Or.inl hw)
  · rw [if_neg hw]
    apply hlt_iff.mpr
    right
    refine ⟨rfl, ?_⟩
    show s.logical < (s.logical + 1) % u16Mod
    have hl : s.logical < 65535 := h.resolve_right hw
    have hfit : s.logical + 1 < u16Mod := by
      unfold u16Mod
      omega
    rw [Nat.mod_eq_of_lt hfit]
    omega

/-- Witness for C1_monotone at a concrete state and a frozen wall reading. -/
theorem C1_monotone_witness :
    HLTimespec.lt (HLTimespec.new 1 2 3) (get_time (HLTimespec.new 1 2 3) ⟨1, 2⟩) :=
  C1_monotone (HLTimespec.new 1 2 3) ⟨1, 2⟩ (Or.inl (by decide))

/-- C2 fails as stated: with both logical counters at 65535 and equal walls,
the final branch of `update` computes `max + 1` on the wrapping `u16`, the
counter wraps to 0 and the result is strictly smaller than the prior `current`
and equal to neither-greater-than `event`'s wall with a smaller counter. -/
theorem C2_counterexample :
    update (HLTimespec.new 5 0 65535) (HLTimespec.new 5 0 65535) ⟨0, 0⟩
      = HLTimespec.new 5 0 0
    ∧ HLTimespec.lt
        (update (HLTimespec.new 5 0 65535) (HLTimespec.new 5 0 65535) ⟨0, 0⟩)
        (HLTimespec.new 5 0 65535)
    ∧ ¬ HLTimespec.lt (HLTimespec.new 5 0 65535)
        (update (HLTimespec.new 5 0 65535) (HLTimespec.new 5 0 65535) ⟨0, 0⟩) := by
  decide

/-- C2 (amended): whenever the prior `current`'s and the event's logical
counters are both below their maximum 65535, the timestamp returned by
`update event` is strictly greater than both the prior `current` and `event`
under the lexicographic total order, for every wall reading. -/
theorem C2_causality (s e : HLTimespec) (w : Timespec)
    (hs : s.logical < 65535) (he : e.logical < 65535) :
    HLTimespec.lt s (update s e w) ∧ HLTimespec.lt e (update s e w) := by
  unfold update
  by_cases h1 : Timespec.lt e.wall w ∧ Timespec.lt s.wall w
  · rw [if_pos h1]
    exact ⟨hlt_iff.mpr (Or.inl h1.2), hlt_iff.mpr (Or.inl h1.1)⟩
  · rw [if_neg h1]
    by_cases h2 : Timespec.lt s.wall e.wall
    · rw [if_pos h2]
      refine ⟨hlt_iff.mpr (Or.inl h2), ?_⟩
      apply hlt_iff.mpr
      right
      refine ⟨rfl, ?_⟩
      show e.logical < (e.logical + 1) % u16Mod
      have hfit : e.logical + 1 < u16Mod := by
        unfold u16Mod
        omega
      rw [Nat.mod_eq_of_lt hfit]
      omega
    · rw [if_neg h2]
      by_cases h3 : Timespec.lt e.wall s.wall
      · rw [if_pos h3]
        refine ⟨?_, hlt_iff.mpr (Or.inl h3)⟩
        apply hlt_iff.mpr
        right
        refine ⟨rfl, ?_⟩
        show s.logical < (s.logical + 1) % u16Mod
        have hfit : s.logical + 1 < u16Mod := by
          unfold u16Mod
          omega
        rw [Nat.mod_eq_of_lt hfit]
        omega
      · rw [if_neg h3]
        have hweq : s.wall = e.wall := by
          rcases tlt_trichotomy s.wall e.wall with h | h | h
          · exact absurd h h2
          · exact h
          · exact absurd h h3
        have hml : s.logical ≤ max s.logical e.logical := le_max_left _ _
        have hmr : e.logical ≤ max s.logical e.logical := le_max_right _ _
        have hfit : max s.logical e.logical + 1 < u16Mod := by
          rcases max_choice s.logical e.logical with h | h <;>
            (rw [h]; unfold u16Mod; omega)
        constructor
        · apply hlt_iff.mpr
          right
          refine ⟨rfl, ?_⟩
          show s.logical < (max s.logical e.logical + 1) % u16Mod
          rw [Nat.mod_eq_of_lt hfit]
          omega
        · apply hlt_iff.mpr
          right
          refine ⟨hweq.symm, ?_⟩
          show e.logical < (max s.logical e.logical + 1) % u16Mod
          rw [Nat.mod_eq_of_lt hfit]
          omega

/-- Witness for C2_causality: a concrete merge where the event's wall is ahead
of both the state and the frozen wall reading. -/
theorem C2_causality_witness :
    HLTimespec.lt (HLTimespec.new 1 0 0)
      (update (HLTimespec.new 1 0 0) (HLTimespec.new 2 0 5) ⟨0, 0⟩)
    ∧ HLTimespec.lt (HLTimespec.new 2 0 5)
      (update (HLTimespec.new 1 0 0) (HLTimespec.new 2 0 5) ⟨0, 0⟩) :=
  C2_causality (HLTimespec.new 1 0 0) (HLTimespec.new 2 0 5) ⟨0, 0⟩
    (by decide) (by decide)

/-- C4 fails as stated: with the logical counter at its maximum 65535 and a
non-advancing reading, the counter is not "incremented by exactly one" — the
`u16` increment wraps it to 0. -/
theorem C4_counterexample :
    ¬ Timespec.lt (HLTimespec.new 5 0 65535).wall ⟨5, 0⟩
    ∧ (get_time (HLTimespec.new 5 0 65535) ⟨5, 0⟩).wall
        = (HLTimespec.new 5 0 65535).wall
    ∧ (get_time (HLTimespec.new 5 0 65535) ⟨5, 0⟩).logical = 0
    ∧ (get_time (HLTimespec.new 5 0 65535) ⟨5, 0⟩).logical
        ≠ (HLTimespec.new 5 0 65535).logical + 1 := by
  decide

/-- C4 (amended): `get_time` consumes one wall reading `w`; if
`w > current.wall` the new state is `(w, 0)`, otherwise the wall is unchanged
and the logical counter is incremented by one modulo 2^16 (the wrapping `u16`
increment); the returned timestamp is the updated state. -/
theorem C4_get_time_cases (s : HLTimespec) (w : Timespec) :
    (Timespec.lt s.wall w →
      get_time s w = { wall := w, logical := 0 })
    ∧ (¬ Timespec.lt s.wall w →
      get_time s w = { wall := s.wall, logical := (s.logical + 1) % 65536 }) := by
  constructor <;> intro h <;> simp [get_time, h, u16Mod]

/-- Witness for C4_get_time_cases: an advanced reading resets the counter, a
stalled reading leaves the wall and bumps the counter. -/
theorem C4_get_time_cases_witness :
    get_time (HLTimespec.new 0 0 0) ⟨1, 0⟩ = { wall := ⟨1, 0⟩, logical := 0 }
    ∧ get_time (HLTimespec.new 3 0 7) ⟨1, 0⟩
        = { wall := ⟨3, 0⟩, logical := 8 % 65536 } :=
  ⟨(C4_get_time_cases (HLTimespec.new 0 0 0) ⟨1, 0⟩).1 (by decide),
   (C4_get_time_cases (HLTimespec.new 3 0 7) ⟨1, 0⟩).2 (by decide)⟩

/-- C5 fails as stated: when the event's wall dominates and its logical
counter is at the maximum 65535, the result's counter is not
`event.logical + 1` — the `u16` increment wraps it to 0. -/
theorem C5_counterexample :
    ¬ (Timespec.lt (HLTimespec.new 5 0 65535).wall (⟨0, 0⟩ : Timespec)
        ∧ Timespec.lt (HLTimespec.new 0 0 0).wall (⟨0, 0⟩ : Timespec))
    ∧ Timespec.lt (HLTimespec.new 0 0 0).wall (HLTimespec.new 5 0 65535).wall
    ∧ (update (HLTimespec.new 0 0 0) (HLTimespec.new 5 0 65535) ⟨0, 0⟩).logical = 0
    ∧ (update (HLTimespec.new 0 0 0) (HLTimespec.new 5 0 65535) ⟨0, 0⟩).logical
        ≠ (HLTimespec.new 5 0 65535).logical + 1 := by
  decide

/-- C5 (amended): `update event` follows the ordered four-case analysis of the
spec, with each `+ 1` being the wrapping `u16` increment (modulo 2^16): the
cases are tried in order, the fall-through `else` case is reached exactly when
`current.wall == event.wall`, and the returned timestamp is the updated
state. -/
theorem C5_update_cases (s e : HLTimespec) (w : Timespec) :
    (Timespec.lt e.wall w ∧ Timespec.lt s.wall w →
      update s e w = { wall := w, logical := 0 })
    ∧ (¬ (Timespec.lt e.wall w ∧ Timespec.lt s.wall w) →
       Timespec.lt s.wall e.wall →
      update s e w = { wall := e.wall, logical := (e.logical + 1) % 65536 })
    ∧ (¬ (Timespec.lt e.wall w ∧ Timespec.lt s.wall w) →
       ¬ Timespec.lt s.wall e.wall → Timespec.lt e.wall s.wall →
      update s e w = { wall := s.wall, logical := (s.logical + 1) % 65536 })
    ∧ (¬ (Timespec.lt e.wall w ∧ Timespec.lt s.wall w) →
       ¬ Timespec.lt s.wall e.wall → ¬ Timespec.lt e.wall s.wall →
      s.wall = e.wall
      ∧ update s e w
          = { wall := s.wall, logical := (max s.logical e.logical + 1) % 65536 }) := by
  refine ⟨?_, ?_, ?_, ?_⟩
  · intro h1
    simp [update, h1, u16Mod]
  · intro h1 h2
    simp [update, h1, h2, u16Mod]
  · intro h1 h2 h3
    simp [update, h1, h2, h3, u16Mod]
  · intro h1 h2 h3
    have hweq : s.wall = e.wall := by
      rcases tlt_trichotomy s.wall e.wall with h | h | h
      · exact absurd h h2
      · exact h
      · exact absurd h h3
    exact ⟨hweq, by simp [update, h1, h2, h3, u16Mod]⟩

/-- Witness for C5_update_cases: one concrete input per case of the ordered
case analysis. -/
theorem C5_update_cases_witness :
    update (HLTimespec.new 0 0 0) (HLTimespec.new 1 0 0) ⟨2, 0⟩
      = { wall := ⟨2, 0⟩, logical := 0 }
    ∧ update (HLTimespec.new 0 0 0) (HLTimespec.new 3 0 7) ⟨1, 0⟩
      = { wall := ⟨3, 0⟩, logical := 8 % 65536 }
    ∧ update (HLTimespec.new 3 0 7) (HLTimespec.new 1 0 0) ⟨0, 0⟩
      = { wall := ⟨3, 0⟩, logical := 8 % 65536 }
    ∧ ((HLTimespec.new 3 0 7).wall = (HLTimespec.new 3 0 9).wall
       ∧ update (HLTimespec.new 3 0 7) (HLTimespec.new 3 0 9) ⟨0, 0⟩
           = { wall := ⟨3, 0⟩, logical := 10 % 65536 }) :=
  ⟨(C5_update_cases (HLTimespec.new 0 0 0) (HLTimespec.new 1 0 0) ⟨2, 0⟩).1
      (by decide),
   (C5_update_cases (HLTimespec.new 0 0 0) (HLTimespec.new 3 0 7) ⟨1, 0⟩).2.1
      (by decide) (by decide),
   (C5_update_cases (HLTimespec.new 3 0 7) (HLTimespec.new 1 0 0) ⟨0, 0⟩).2.2.1
      (by decide) (by decide) (by decide),
   (C5_update_cases (HLTimespec.new 3 0 7) (HLTimespec.new 3 0 9) ⟨0, 0⟩).2.2.2
      (by decide) (by decide) (by decide)⟩

/-- C6: the logical counter is 16-bit and unchecked — on every increment site
the counter is taken modulo 2^16, so an increment of a counter already at
65535 wraps silently to 0: in `get_time`'s stall branch, and in all three
incrementing branches of `update` (event-dominates, current-dominates, and
equal-walls). -/
theorem C6_wraparound :
    (∀ (s : HLTimespec) (w : Timespec), ¬ Timespec.lt s.wall w →
      (get_time s w).logical = (s.logical + 1) % 65536)
    ∧ (∀ (s : HLTimespec) (w : Timespec), ¬ Timespec.lt s.wall w →
        s.logical = 65535 → (get_time s w).logical = 0)
    ∧ (∀ (s e : HLTimespec) (w : Timespec),
        ¬ (Timespec.lt e.wall w ∧ Timespec.lt s.wall w) →
        Timespec.lt s.wall e.wall → e.logical = 65535 →
        (update s e w).logical = 0)
    ∧ (∀ (s e : HLTimespec) (w : Timespec),
        ¬ (Timespec.lt e.wall w ∧ Timespec.lt s.wall w) →
        ¬ Timespec.lt s.wall e.wall → Timespec.lt e.wall s.wall →
        s.logical = 65535 → (update s e w).logical = 0)
    ∧ (∀ (s e : HLTimespec) (w : Timespec),
        ¬ (Timespec.lt e.wall w ∧ Timespec.lt s.wall w) →
        ¬ Timespec.lt s.wall e.wall → ¬ Timespec.lt e.wall s.wall →
        max s.logical e.logical = 65535 → (update s e w).logical = 0) := by
  refine ⟨?_, ?_, ?_, ?_, ?_⟩
  · intro s w h
    simp [get_time, h, u16Mod]
  · intro s w h hl
    simp [get_time, h, hl, u16Mod]
  · intro s e w h1 h2 hl
    simp [update, h1, h2, hl, u16Mod]
  · intro s e w h1 h2 h3 hl
    simp [update, h1, h2, h3, hl, u16Mod]
  · intro s e w h1 h2 h3 hl
    simp [update, h1, h2, h3, hl, u16Mod]

/-- Witness for C6_wraparound: a counter at 65535 wraps to 0 under a stalled
reading in `get_time`, and in `update`'s current-dominates and equal-walls
branches. -/
theorem C6_wraparound_witness :
    (get_time (HLTimespec.new 5 0 65535) ⟨5, 0⟩).logical = 0
    ∧ (update (HLTimespec.new 5 0 65535) (HLTimespec.new 1 0 0) ⟨0, 0⟩).logical = 0
    ∧ (update (HLTimespec.new 5 0 65535) (HLTimespec.new 5 0 1) ⟨0, 0⟩).logical = 0 :=
  ⟨C6_wraparound.2.1 (HLTimespec.new 5 0 65535) ⟨5, 0⟩ (by decide) (by decide),
   C6_wraparound.2.2.2.1 (HLTimespec.new 5 0 65535) (HLTimespec.new 1 0 0) ⟨0, 0⟩
     (by decide) (by decide) (by decide) (by decide),
   C6_wraparound.2.2.2.2 (HLTimespec.new 5 0 65535) (HLTimespec.new 5 0 1) ⟨0, 0⟩
     (by decide) (by decide) (by decide) (by decide)⟩

/-- C7: both operations are total — for every state, reading, and event value
(negative seconds, out-of-range nanoseconds and stale events included) they
produce a timestamp, and the produced logical counter is always a valid `u16`
value (< 2^16), so no error or panic branch is reachable in the embedding. -/
theorem C7_totality (s e : HLTimespec) (w : Timespec) :
    (get_time s w).logical < 65536 ∧ (update s e w).logical < 65536 := by
  constructor
  · unfold get_time
    split
    · show (0 : Nat) < 65536
      omega
    · show (s.logical + 1) % u16Mod < 65536
      exact Nat.mod_lt _ (by decide)
  · unfold update
    split
    · show (0 : Nat) < 65536
      omega
    · split
      · show (e.logical + 1) % u16Mod < 65536
        exact Nat.mod_lt _ (by decide)
      · split
        · show (s.logical + 1) % u16Mod < 65536
          exact Nat.mod_lt _ (by decide)
        · show (max s.logical e.logical + 1) % u16Mod < 65536
          exact Nat.mod_lt _ (by decide)

/-- The larger of two wall values under the derived `Ord` on `time::Timespec`. -/
def Timespec.tmax (a b : Timespec) : Timespec :=
  if Timespec.lt a b then b else a

/-- Non-strict order on wall values: strictly smaller or equal. -/
def Timespec.le (a b : Timespec) : Prop :=
  Timespec.lt a b ∨ a = b

/-- C8: the wall of every result is the maximum of the walls involved —
`max(current.wall, physical)` for `get_time`,
`max(physical, current.wall, event.wall)` for `update` — so the stored wall
component never decreases across any operation. -/
theorem C8_wall_is_max (s e : HLTimespec) (w : Timespec) :
    (get_time s w).wall = Timespec.tmax s.wall w
    ∧ (update s e w).wall = Timespec.tmax w (Timespec.tmax s.wall e.wall)
    ∧ Timespec.le s.wall (get_time s w).wall
    ∧ Timespec.le s.wall (update s e w).wall := by
  rcases s with ⟨⟨ss, sn⟩, sl⟩
  rcases e with ⟨⟨es, en⟩, el⟩
  rcases w with ⟨ws, wn⟩
  refine ⟨?_, ?_, ?_, ?_⟩ <;>
    · simp only [get_time, update, Timespec.tmax, Timespec.le]
      split_ifs <;>
        simp_all only [tlt_iff, Timespec.mk.injEq, HLTimespec.mk.injEq,
          not_or, not_and, not_lt, true_or, or_true, true_and, and_true] <;>
        omega

/-- `impl Display for HLTimespec`: `format!("{}.{}+{}", sec, nsec, logical)`. -/
def HLTimespec.render (t : HLTimespec) : String :=
  toString t.wall.sec ++ "." ++ toString t.wall.nsec ++ "+" ++ toString t.logical

/-- C9: rendering a timestamp built from `(seconds, nanoseconds, logical)`
produces exactly `"{seconds}.{nanoseconds}+{logical}"`; in particular the
timestamp built from `(1, 2, 3)` renders as the literal `"1.2+3"`. -/
theorem C9_render :
    (∀ (s ns : Int) (l : Nat),
      HLTimespec.render (HLTimespec.new s ns l)
        = toString s ++ "." ++ toString ns ++ "+" ++ toString l)
    ∧ HLTimespec.render (HLTimespec.new 1 2 3) = "1.2+3" :=
  ⟨fun _ _ _ => rfl, by decide⟩

/-- C10: two runs that both start from a freshly created clock (`current`
initialized to the zero timestamp by `new_with`) and replay the same script —
the same wall-time readings paired with the same `get_time`/`update` calls and
event arguments — return identical sequences of timestamps. -/
theorem C10_determinism (c1 c2 : HLTimespec) (script : List (Timespec × Op))
    (h1 : c1 = new_with) (h2 : c2 = new_with) :
    run c1 script = run c2 script := by
  rw [h1, h2]

/-- Witness for C10_determinism on a concrete three-call script. -/
theorem C10_determinism_witness :
    run new_with
        [ (⟨1, 0⟩, Op.now), (⟨1, 0⟩, Op.merge (HLTimespec.new 2 0 5)),
          (⟨0, 0⟩, Op.now) ]
      = run new_with
        [ (⟨1, 0⟩, Op.now), (⟨1, 0⟩, Op.merge (HLTimespec.new 2 0 5)),
          (⟨0, 0⟩, Op.now) ] :=
  C10_determinism new_with new_with
    [ (⟨1, 0⟩, Op.now), (⟨1, 0⟩, Op.merge (HLTimespec.new 2 0 5)),
      (⟨0, 0⟩, Op.now) ] rfl rfl
